import Mathlib

/-!
Verification of the estate-document core: a shallow embedding of the
template merge engine (`DocumentService._merge_template` and its helpers in
`src/backend/src/services/document_service.py`) and of the question-logic /
flow-logic evaluators (`SessionService` in
`src/backend/src/services/session_service.py`).

Strings are embedded as `List Char`.  Python dictionaries are embedded as
association lists carrying one binding per key.  Each regex pass of the
merge engine is embedded as a left-to-right scanner (`rewriteScan`) driven
by a matcher that recognises the corresponding pattern at the current
position, mirroring `re.sub` semantics (leftmost match, shortest
non-greedy body, continue after the match).  The scanner carries a fuel
argument instantiated with the length of the scanned string; every match
consumes at least one character, so the fuel never runs out.
-/

/-- Answer map handed to the merge engine: question identifier to formatted
answer value, one binding per identifier (`answer_map` in
`document_service.py`). -/
def MergeAnswers : Type := List (List Char × List Char)

/-- Embeds Python `answer_map.get(identifier, default)`. -/
def lookupD (m : MergeAnswers) (k d : List Char) : List Char :=
  match m with
  | [] => d
  | (k2, v) :: rest => if k2 = k then v else lookupD rest k d

/-- Embeds `DocumentService._is_value_empty`: a value is empty when it is
the empty string, blank after stripping whitespace, or of the bracketed
sentinel shape (starts with an opening and ends with a closing square
bracket). -/
def is_value_empty (value : List Char) : Bool :=
  if value.isEmpty then true
  else if value.all Char.isWhitespace then true
  else if value.head? = some '[' ∧ value.getLast? = some ']' then true
  else false

/-- Left-to-right non-overlapping rewriting, mirroring `re.sub`: at each
position, `matchAt` either recognises the pattern (returning the
replacement and the remainder after the match) or the scanner advances by
one character.  `fuel` bounds the number of steps. -/
def rewriteScan (matchAt : List Char → Option (List Char × List Char)) :
    Nat → List Char → List Char
  | 0, l => l
  | _ + 1, [] => []
  | fuel + 1, c :: rest =>
    match matchAt (c :: rest) with
    | some (rep, after) => rep ++ rewriteScan matchAt fuel after
    | none => c :: rewriteScan matchAt fuel rest

/-- Does `pat` occur as a contiguous substring? -/
def hasSub (pat : List Char) : List Char → Bool
  | [] => pat.isEmpty
  | c :: t => pat.isPrefixOf (c :: t) || hasSub pat t

/-- Splits at the earliest occurrence of `pat`, returning the part before
it and the part after it (the non-greedy search used by `(.*?)` bodies). -/
def splitOnSub (pat : List Char) : List Char → Option (List Char × List Char)
  | [] => none
  | c :: rest =>
    if pat.isPrefixOf (c :: rest) then some ([], (c :: rest).drop pat.length)
    else
      match splitOnSub pat rest with
      | some (pre1, post) => some (c :: pre1, post)
      | none => none

/-- Embeds Python `str.replace`: replaces every non-overlapping occurrence
of `pat` left to right (used inside kept bracket sections). -/
def replaceAllF : Nat → List Char → List Char → List Char → List Char
  | 0, _, _, l => l
  | _ + 1, _, _, [] => []
  | fuel + 1, pat, rep, c :: rest =>
    if pat ≠ [] ∧ pat.isPrefixOf (c :: rest) then
      rep ++ replaceAllF fuel pat rep ((c :: rest).drop pat.length)
    else c :: replaceAllF fuel pat rep rest

/-- Recognises the closing marker of a conditional block: two opening
braces, optional whitespace, `END` case-insensitively, optional
whitespace, two closing braces.  Returns the remainder after it. -/
def matchEndMarker (l : List Char) : Option (List Char) :=
  if ('{' :: '{' :: []).isPrefixOf l then
    match (l.drop 2).dropWhile Char.isWhitespace with
    | e :: n :: d :: r2 =>
      if e.toLower = 'e' ∧ n.toLower = 'n' ∧ d.toLower = 'd' then
        match r2.dropWhile Char.isWhitespace with
        | '}' :: '}' :: after => some after
        | _ => none
      else none
    | _ => none
  else none

/-- Splits at the earliest position where the `END` marker matches: the
non-greedy body of every conditional-block pattern. -/
def splitOnEnd : List Char → Option (List Char × List Char)
  | [] => none
  | c :: rest =>
    match matchEndMarker (c :: rest) with
    | some after => some ([], after)
    | none =>
      match splitOnEnd rest with
      | some (pre1, post) => some (c :: pre1, post)
      | none => none

/-- Recognises the common header of all conditional blocks: two opening
braces, optional whitespace, `IF` case-insensitively, then at least one
whitespace character.  Returns the remainder. -/
def matchIfHeader (l : List Char) : Option (List Char) :=
  if ('{' :: '{' :: []).isPrefixOf l then
    match (l.drop 2).dropWhile Char.isWhitespace with
    | i :: f :: r2 =>
      if i.toLower = 'i' ∧ f.toLower = 'f' then
        match r2 with
        | c :: _ =>
          if c.isWhitespace then some (r2.dropWhile Char.isWhitespace) else none
        | [] => none
      else none
    | _ => none
  else none

/-- Recognises `NOT` case-insensitively followed by at least one
whitespace character (the extra keyword of the non-existence form). -/
def matchNotKeyword (l : List Char) : Option (List Char) :=
  match l with
  | n :: o :: t :: r =>
    if n.toLower = 'n' ∧ o.toLower = 'o' ∧ t.toLower = 't' then
      match r with
      | c :: _ =>
        if c.isWhitespace then some (r.dropWhile Char.isWhitespace) else none
      | [] => none
    else none
  | _ => none

/-- Parses the identifier part of a conditional header: an optional pair
of opening angle brackets, one or more characters of the class `allowed`,
and an optional pair of closing angle brackets.  If the bracketed attempt
leaves the identifier empty the unbracketed reading is used, mirroring the
regex backtracking over `(?:<<)?`. -/
def parseCondIdent (allowed : Char → Bool) (l : List Char) :
    Option (List Char × List Char) :=
  let core := fun (l2 : List Char) =>
    let ident := l2.takeWhile allowed
    if ident.isEmpty then none
    else
      match l2.drop ident.length with
      | '>' :: '>' :: r2 => some (ident, r2)
      | r => some (ident, r)
  match l with
  | '<' :: '<' :: rest =>
    match core rest with
    | some x => some x
    | none => core l
  | _ => core l

/-- Identifier character class of the equality form: anything but a
closing angle bracket, an equals sign, or whitespace. -/
def eqIdentChar (c : Char) : Bool :=
  c ≠ '>' ∧ c ≠ '=' ∧ ¬ c.isWhitespace

/-- Identifier character class of the inequality form: additionally
excludes the exclamation mark. -/
def neqIdentChar (c : Char) : Bool :=
  c ≠ '>' ∧ c ≠ '=' ∧ c ≠ '!' ∧ ¬ c.isWhitespace

/-- Identifier character class of the existence forms: additionally
excludes the closing brace. -/
def exIdentChar (c : Char) : Bool :=
  c ≠ '>' ∧ c ≠ '=' ∧ c ≠ '!' ∧ c ≠ '}' ∧ ¬ c.isWhitespace

/-- Embeds `process_if_equals_block`: keep the enclosed text iff the
identifier's value equals the literal case-insensitively. -/
def process_if_equals_block (ans : MergeAnswers) (identifier value content : List Char) :
    List Char :=
  let actual := lookupD ans identifier []
  if actual.map Char.toLower = value.map Char.toLower then content else []

/-- Embeds `process_if_not_equals_block`: the inverse of the equality
form. -/
def process_if_not_equals_block (ans : MergeAnswers) (identifier value content : List Char) :
    List Char :=
  let actual := lookupD ans identifier []
  if actual.map Char.toLower ≠ value.map Char.toLower then content else []

/-- Embeds `process_if_block`: keep the enclosed text iff the identifier's
value is not empty. -/
def process_if_block (ans : MergeAnswers) (identifier content : List Char) : List Char :=
  let value := lookupD ans identifier []
  if ¬ is_value_empty value then content else []

/-- Embeds `process_if_not_block`: keep the enclosed text iff the
identifier's value is empty. -/
def process_if_not_block (ans : MergeAnswers) (identifier content : List Char) : List Char :=
  let value := lookupD ans identifier []
  if is_value_empty value then content else []

/-- Parses the tail of an equality or inequality header after the
identifier: a quoted literal (either quote kind, the closing quote
optional) followed by the two closing braces.  Returns the literal and the
remainder. -/
def parseQuotedValue (l : List Char) : Option (List Char × List Char) :=
  match l with
  | q :: r6 =>
    if q = '"' ∨ q = '\'' then
      let value := r6.takeWhile (fun c => c ≠ '"' ∧ c ≠ '\'')
      let r7 := r6.drop value.length
      let r8 :=
        match r7 with
        | c :: t => if c = '"' ∨ c = '\'' then t else r7
        | [] => r7
      match r8.dropWhile Char.isWhitespace with
      | '}' :: '}' :: r10 => some (value, r10)
      | _ => none
    else none
  | [] => none

/-- Matcher for the equality conditional pass of `_merge_template`. -/
def matchEq (ans : MergeAnswers) (l : List Char) : Option (List Char × List Char) :=
  match matchIfHeader l with
  | none => none
  | some r1 =>
    match parseCondIdent eqIdentChar r1 with
    | none => none
    | some (ident, r2) =>
      match r2.dropWhile Char.isWhitespace with
      | '=' :: r4 =>
        match parseQuotedValue (r4.dropWhile Char.isWhitespace) with
        | none => none
        | some (value, r10) =>
          match splitOnEnd r10 with
          | some (content, after) =>
            some (process_if_equals_block ans ident value content, after)
          | none => none
      | _ => none

/-- Matcher for the inequality conditional pass of `_merge_template`. -/
def matchNeq (ans : MergeAnswers) (l : List Char) : Option (List Char × List Char) :=
  match matchIfHeader l with
  | none => none
  | some r1 =>
    match parseCondIdent neqIdentChar r1 with
    | none => none
    | some (ident, r2) =>
      match r2.dropWhile Char.isWhitespace with
      | '!' :: '=' :: r4 =>
        match parseQuotedValue (r4.dropWhile Char.isWhitespace) with
        | none => none
        | some (value, r10) =>
          match splitOnEnd r10 with
          | some (content, after) =>
            some (process_if_not_equals_block ans ident value content, after)
          | none => none
      | _ => none

/-- Matcher for the existence conditional pass of `_merge_template`. -/
def matchIf (ans : MergeAnswers) (l : List Char) : Option (List Char × List Char) :=
  match matchIfHeader l with
  | none => none
  | some r1 =>
    match parseCondIdent exIdentChar r1 with
    | none => none
    | some (ident, r2) =>
      match r2.dropWhile Char.isWhitespace with
      | '}' :: '}' :: r10 =>
        match splitOnEnd r10 with
        | some (content, after) => some (process_if_block ans ident content, after)
        | none => none
      | _ => none

/-- Matcher for the non-existence conditional pass of `_merge_template`. -/
def matchIfNot (ans : MergeAnswers) (l : List Char) : Option (List Char × List Char) :=
  match matchIfHeader l with
  | none => none
  | some r1 =>
    match matchNotKeyword r1 with
    | none => none
    | some r1b =>
      match parseCondIdent exIdentChar r1b with
      | none => none
      | some (ident, r2) =>
        match r2.dropWhile Char.isWhitespace with
        | '}' :: '}' :: r10 =>
          match splitOnEnd r10 with
          | some (content, after) => some (process_if_not_block ans ident content, after)
          | none => none
        | _ => none

/-- Embeds `re.findall` over the identifier pattern: collects the
identifiers of all complete identifier tokens in source order. -/
def find_identifiers : Nat → List Char → List (List Char)
  | 0, _ => []
  | _ + 1, [] => []
  | fuel + 1, c :: rest =>
    if ('<' :: '<' :: []).isPrefixOf (c :: rest) then
      let body := (c :: rest).drop 2
      let ident := body.takeWhile (fun x => x ≠ '>')
      if ident.isEmpty then find_identifiers fuel rest
      else
        match body.drop ident.length with
        | '>' :: '>' :: after => ident :: find_identifiers fuel after
        | _ => find_identifiers fuel rest
    else find_identifiers fuel rest

/-- Embeds `process_conditional_section` for a bracket section: a section
with no identifiers is kept as is; a section one of whose identifiers is
empty is dropped whole; otherwise every identifier token is replaced by
its value and the section text is kept. -/
def process_conditional_section (ans : MergeAnswers) (section_content : List Char) :
    List Char :=
  let ids := find_identifiers section_content.length section_content
  if ids.isEmpty then section_content
  else if ids.any (fun i => is_value_empty (lookupD ans i [])) then []
  else
    ids.foldl
      (fun acc i =>
        replaceAllF acc.length ('<' :: '<' :: (i ++ '>' :: '>' :: [])) (lookupD ans i []) acc)
      section_content

/-- Matcher for the bracket-section pass of `_merge_template`. -/
def matchBracket (ans : MergeAnswers) (l : List Char) : Option (List Char × List Char) :=
  if ('[' :: '[' :: []).isPrefixOf l then
    match splitOnSub (']' :: ']' :: []) (l.drop 2) with
    | some (content, after) => some (process_conditional_section ans content, after)
    | none => none
  else none

/-- Embeds `replace_identifier`: a dotted identifier projects a field out
of a structured value stored under the base identifier; a plain identifier
substitutes its value, or the empty string when the value is empty.  The
JSON-based projection of the dotted branch is abstracted as the parameter
`rd` (given the stored text and the field name it returns the projected
text); every theorem below holds for every such projection. -/
def replace_identifier (rd : List Char → List Char → List Char) (ans : MergeAnswers)
    (identifier : List Char) : List Char :=
  if identifier.contains '.' then
    let person_identifier := identifier.takeWhile (fun c => c ≠ '.')
    let field_name := (identifier.dropWhile (fun c => c ≠ '.')).drop 1
    let person_json := lookupD ans person_identifier []
    if person_json.isEmpty then [] else rd person_json field_name
  else
    let value := lookupD ans identifier []
    if ¬ is_value_empty value then value else []

/-- Matcher for the identifier-substitution pass of `_merge_template`. -/
def matchIdentSub (rd : List Char → List Char → List Char) (ans : MergeAnswers)
    (l : List Char) : Option (List Char × List Char) :=
  if ('<' :: '<' :: []).isPrefixOf l then
    let rest := l.drop 2
    let ident := rest.takeWhile (fun c => c ≠ '>')
    if ident.isEmpty then none
    else
      match rest.drop ident.length with
      | '>' :: '>' :: after => some (replace_identifier rd ans ident, after)
      | _ => none
  else none

/-- Embeds the peek-counter substitution: every peek token is replaced by
the current counter value, which is never advanced. -/
def replacePeek (counter : Nat) : List Char → List Char
  | [] => []
  | c :: rest =>
    match rest with
    | [] => [c]
    | [c2] => [c, c2]
    | c2 :: c3 :: rest3 =>
      if c = '#' ∧ c2 = '^' ∧ c3 = '.' then
        Nat.toDigits 10 counter ++ replacePeek counter rest3
      else c :: replacePeek counter (c2 :: c3 :: rest3)

/-- Embeds the auto-increment counter substitution: every increment token
is replaced by the current counter value and advances it by one. -/
def replaceHash (counter : Nat) : List Char → List Char
  | [] => []
  | c :: rest =>
    match rest with
    | [] => [c]
    | c2 :: rest2 =>
      if c = '#' ∧ c2 = '#' then
        Nat.toDigits 10 counter ++ replaceHash (counter + 1) rest2
      else c :: replaceHash counter (c2 :: rest2)

/-- Embeds the final whitespace cleanup: every run of two or more spaces
collapses to a single space (squeezing adjacent space pairs until one
space per run remains yields the same string as the one-shot run
replacement of the source regex). -/
def collapseSpaces (l : List Char) : List Char :=
  match l with
  | [] => []
  | c :: rest =>
    if (' ' :: ' ' :: []).isPrefixOf (c :: rest) then collapseSpaces rest
    else c :: collapseSpaces rest

/-- Equality conditional pass (pass 1 of `_merge_template`). -/
def eq_pass (ans : MergeAnswers) (l : List Char) : List Char :=
  rewriteScan (matchEq ans) l.length l

/-- Inequality conditional pass (pass 2 of `_merge_template`). -/
def neq_pass (ans : MergeAnswers) (l : List Char) : List Char :=
  rewriteScan (matchNeq ans) l.length l

/-- Existence conditional pass (pass 3 of `_merge_template`). -/
def if_pass (ans : MergeAnswers) (l : List Char) : List Char :=
  rewriteScan (matchIf ans) l.length l

/-- Non-existence conditional pass (pass 4 of `_merge_template`). -/
def if_not_pass (ans : MergeAnswers) (l : List Char) : List Char :=
  rewriteScan (matchIfNot ans) l.length l

/-- Bracket-section pass (pass 5 of `_merge_template`). -/
def bracket_pass (ans : MergeAnswers) (l : List Char) : List Char :=
  rewriteScan (matchBracket ans) l.length l

/-- Identifier-substitution pass (pass 6 of `_merge_template`). -/
def ident_pass (rd : List Char → List Char → List Char) (ans : MergeAnswers)
    (l : List Char) : List Char :=
  rewriteScan (matchIdentSub rd ans) l.length l

/-- Embeds `DocumentService._merge_template`: the eight passes in source
order.  The counter of pass 7 is a single integer initialised to 1 and
local to the call; the peek tokens are substituted before the increment
tokens. -/
def merge_template (rd : List Char → List Char → List Char)
    (template_content : List Char) (answer_map : MergeAnswers) : List Char :=
  let m1 := eq_pass answer_map template_content
  let m2 := neq_pass answer_map m1
  let m3 := if_pass answer_map m2
  let m4 := if_not_pass answer_map m3
  let m5 := bracket_pass answer_map m4
  let m6 := ident_pass rd answer_map m5
  let counter := 1
  let m7 := replaceHash counter (replacePeek counter m6)
  collapseSpaces m7

/-- Answer snapshot keyed by question identifier
(`answer_by_identifier` / `answer_map` in `session_service.py`).  The
value component is optional because a stored `answer_value` may be null
from the evaluator's point of view. -/
def AnswerEnv : Type := List (List Char × Option (List Char))

/-- Embeds `identifier in answer_by_identifier` plus the subsequent
lookup: `some v` when the key is present with stored value `v`, `none`
when absent. -/
def lookupAns (ans : AnswerEnv) (k : List Char) : Option (Option (List Char)) :=
  match ans with
  | [] => none
  | (k2, v) :: rest => if k2 = k then some v else lookupAns rest k

/-- A node of a question-logic tree.  A `question` node carries the
referenced question id (0 embeds a missing or falsy `questionId`) and the
stop flag.  A `conditional` node carries the source identifier (the empty
list embeds a missing or empty `ifIdentifier`), the operator string, the
expected value (`none` embeds a missing `value`), the legacy
`nextGroupId` used only by the submit-and-advance shortcut (0 embeds a
missing one), the nested items and the end-flow flag.  `other` embeds an
entry whose type is neither, or a conditional entry without a payload. -/
inductive LogicItem where
  | question (questionId : Nat) (stopFlow : Bool)
  | conditional (ifIdentifier : List Char) (operator : List Char)
      (value : Option (List Char)) (nextGroupId : Nat)
      (nestedItems : List LogicItem) (endFlow : Bool)
  | other
deriving Repr

/-- Embeds `process_logic_items` of `_get_questions_from_logic`: walks the
items depth first, appending each active not-yet-seen question id, and
returns the accumulated ids together with the continue flag (`False` in
the source means a stop or end-flow flag fired).  `env` lists the ids of
active questions; the accumulator plays the role of the shared `questions`
list. -/
def process_logic_items (env : List Nat) (ans : AnswerEnv) :
    List LogicItem → List Nat → List Nat × Bool
  | [], questions => (questions, true)
  | LogicItem.question qid stop :: rest, questions =>
    let questions2 :=
      if qid ≠ 0 ∧ qid ∈ env ∧ qid ∉ questions then questions ++ [qid] else questions
    if stop then (questions2, false)
    else process_logic_items env ans rest questions2
  | LogicItem.conditional ifIdent op value _ nested endF :: rest, questions =>
    if ifIdent ≠ [] ∧ (lookupAns ans ifIdent).isSome then
      match lookupAns ans ifIdent with
      | some (some actual) =>
        if actual = [] then process_logic_items env ans rest questions
        else
          let met :=
            if op = ("not_equals").toList then some actual ≠ value
            else some actual = value
          if met then
            let r := process_logic_items env ans nested questions
            if r.2 = false then (r.1, false)
            else if endF then (r.1, false)
            else process_logic_items env ans rest r.1
          else process_logic_items env ans rest questions
      | _ => process_logic_items env ans rest questions
    else process_logic_items env ans rest questions
  | LogicItem.other :: rest, questions => process_logic_items env ans rest questions

/-- The ordered list of visible questions computed by the question-logic
evaluator. -/
def visible_questions (env : List Nat) (ans : AnswerEnv) (items : List LogicItem) :
    List Nat :=
  (process_logic_items env ans items []).1

/-- Modelled from the spec's description of the traversal order: the plain
depth-first left-to-right sequence of active question ids visited by the
evaluator, without the seen-set, with the same conditional gating and the
same early termination.  Used only to state the refinement of claim C8. -/
def dfs_collect (env : List Nat) (ans : AnswerEnv) :
    List LogicItem → List Nat × Bool
  | [] => ([], true)
  | LogicItem.question qid stop :: rest =>
    let here := if qid ≠ 0 ∧ qid ∈ env then [qid] else []
    if stop then (here, false)
    else
      let r := dfs_collect env ans rest
      (here ++ r.1, r.2)
  | LogicItem.conditional ifIdent op value _ nested endF :: rest =>
    if ifIdent ≠ [] ∧ (lookupAns ans ifIdent).isSome then
      match lookupAns ans ifIdent with
      | some (some actual) =>
        if actual = [] then dfs_collect env ans rest
        else
          let met :=
            if op = ("not_equals").toList then some actual ≠ value
            else some actual = value
          if met then
            let r := dfs_collect env ans nested
            if r.2 = false then (r.1, false)
            else if endF then (r.1, false)
            else
              let r2 := dfs_collect env ans rest
              (r.1 ++ r2.1, r2.2)
          else dfs_collect env ans rest
      | _ => dfs_collect env ans rest
    else dfs_collect env ans rest
  | LogicItem.other :: rest => dfs_collect env ans rest

/-- Keeps the first occurrence of each element not already seen: the
effect of the evaluator's seen-set on a traversal sequence. -/
def first_occurrences (seen : List Nat) : List Nat → List Nat
  | [] => []
  | x :: xs =>
    if x ∈ seen then first_occurrences seen xs
    else x :: first_occurrences (seen ++ [x]) xs

/-- A step of a flow-logic tree.  A `group` step carries the group id (0
embeds a missing or falsy `groupId`).  A `conditional` step carries the
source identifier (the empty list embeds a missing or empty one), the
expected value (`none` embeds a missing `value`), the target group id (0
embeds a missing one) and the nested steps.  `other` embeds an entry of
neither shape. -/
inductive FlowStep where
  | group (groupId : Nat)
  | conditional (identifier : List Char) (value : Option (List Char))
      (targetGroupId : Nat) (nestedSteps : List FlowStep)
  | other
deriving Repr

/-- Embeds `process_steps` of `_get_groups_from_flow_logic`: group steps
append their group when it is active and not yet collected; conditional
steps fire when their identifier is truthy and present in the answer map
with a stored value exactly equal to the expected one, appending the
target group and then the recursively processed nested steps.  `env`
lists the ids of active groups. -/
def process_steps (env : List Nat) (ans : AnswerEnv) :
    List FlowStep → List Nat → List Nat
  | [], groups => groups
  | FlowStep.group gid :: rest, groups =>
    let groups2 :=
      if gid ≠ 0 ∧ gid ∈ env ∧ gid ∉ groups then groups ++ [gid] else groups
    process_steps env ans rest groups2
  | FlowStep.conditional identifier value target nested :: rest, groups =>
    if identifier ≠ [] ∧ (lookupAns ans identifier).isSome then
      if lookupAns ans identifier = some value then
        let groups2 :=
          if target ≠ 0 ∧ target ∈ env ∧ target ∉ groups then groups ++ [target]
          else groups
        let groups3 := process_steps env ans nested groups2
        process_steps env ans rest groups3
      else process_steps env ans rest groups
    else process_steps env ans rest groups
  | FlowStep.other :: rest, groups => process_steps env ans rest groups

/-- Embeds `_get_groups_from_flow_logic`: the ordered group ids produced
by walking a flow-logic tree against an answer snapshot. -/
def get_groups_from_flow_logic (env : List Nat) (ans : AnswerEnv)
    (flow_logic : List FlowStep) : List Nat :=
  process_steps env ans flow_logic []

/-- A question group row as seen by `submit_answers`: id, display order,
question-logic tree and the group's questions as (id, identifier) pairs. -/
structure GroupRec where
  id : Nat
  displayOrder : Int
  questionLogic : List LogicItem
  questions : List (Nat × List Char)
deriving Repr

/-- The navigation state of a document session. -/
structure SessionState where
  currentGroupId : Nat
  isCompleted : Bool
  completedAt : Option Nat
deriving Repr

/-- Embeds `answer_by_question_id.get(q.id)` over the submitted answers:
`none` when the question was not answered in this submission (or its
stored value is null), mirroring the `is None` check of the source. -/
def dictGetById (m : List (Nat × Option (List Char))) (k : Nat) :
    Option (List Char) :=
  match m with
  | [] => none
  | (k2, v) :: rest => if k2 = k then v else dictGetById rest k

/-- Embeds the inner loop of `_get_next_group` over the current group's
questions: finds a question whose identifier matches the conditional's
source, skips the conditional when its answer is missing or empty,
evaluates the operator, and returns the conditional's `nextGroupId` when
the condition is met and a target is present.  `none` covers every way
the loop falls through to the next logic item. -/
def shortcut_scan (answerById : List (Nat × Option (List Char)))
    (if_identifier : List Char) (expected_value : Option (List Char))
    (operator : List Char) (next_group_id : Nat) :
    List (Nat × List Char) → Option Nat
  | [] => none
  | (qid, ident) :: rest =>
    if ident = if_identifier then
      match dictGetById answerById qid with
      | none => none
      | some a =>
        if a = [] then none
        else
          let met :=
            if operator = ("not_equals").toList then some a ≠ expected_value
            else some a = expected_value
          if met then (if next_group_id ≠ 0 then some next_group_id else none)
          else shortcut_scan answerById if_identifier expected_value operator
            next_group_id rest
    else shortcut_scan answerById if_identifier expected_value operator
      next_group_id rest

/-- Embeds the outer loop of `_get_next_group` over the current group's
top-level question-logic items: the first conditional whose shortcut
fires determines the next group. -/
def get_next_group_shortcut (answerById : List (Nat × Option (List Char)))
    (questions : List (Nat × List Char)) : List LogicItem → Option Nat
  | [] => none
  | LogicItem.conditional ifIdent op value nextGid _ _ :: rest =>
    match shortcut_scan answerById ifIdent value op nextGid questions with
    | some gid => some gid
    | none => get_next_group_shortcut answerById questions rest
  | _ :: rest => get_next_group_shortcut answerById questions rest

/-- Embeds the fallback query of `_get_next_group`: the first group, in
display order, whose display order strictly exceeds the current group's
(the successor of the current group in the ordered group list). -/
def next_by_display_order (allGroups : List GroupRec) (cur : GroupRec) : Option Nat :=
  match allGroups.filter (fun g => cur.displayOrder < g.displayOrder) with
  | [] => none
  | h :: t =>
    some (t.foldl (fun best g => if g.displayOrder < best.displayOrder then g else best) h).id

/-- Embeds `_get_next_group`: the legacy per-group conditional shortcut,
then the display-order fallback. -/
def get_next_group (allGroups : List GroupRec) (current_group : GroupRec)
    (answerById : List (Nat × Option (List Char))) : Option Nat :=
  match get_next_group_shortcut answerById current_group.questions
      current_group.questionLogic with
  | some gid => some gid
  | none => next_by_display_order allGroups current_group

/-- Embeds the navigation part of `submit_answers` (after the answers are
persisted): look up the current group, compute the next group, and either
move the session there or mark it completed with the current timestamp.
`none` embeds the error raised when the current group does not exist. -/
def submit_answers_nav (allGroups : List GroupRec) (session : SessionState)
    (answerById : List (Nat × Option (List Char))) (now : Nat) :
    Option SessionState :=
  match allGroups.find? (fun g => g.id = session.currentGroupId) with
  | none => none
  | some cur =>
    match get_next_group allGroups cur answerById with
    | some gid => some { session with currentGroupId := gid }
    | none =>
      some { session with isCompleted := true, completedAt := some now }

/-- A matcher that fails on every suffix leaves the scanned string
unchanged. -/
theorem rewriteScan_eq_self (m : List Char → Option (List Char × List Char)) :
    ∀ (fuel : Nat) (l : List Char), (∀ s, s <:+ l → m s = none) →
      rewriteScan m fuel l = l := by
  intro fuel
  induction fuel with
  | zero => intro l _; rfl
  | succ fuel ih =>
    intro l h
    cases l with
    | nil => rfl
    | cons c rest =>
      have h0 := h (c :: rest) List.suffix_rfl
      simp only [rewriteScan, h0]
      exact congrArg (c :: ·)
        (ih rest (fun s hs => h s (hs.trans (List.suffix_cons c rest))))

/-- A pattern that is a prefix of some suffix occurs as a substring. -/
theorem hasSub_of_suffix (pat : List Char) :
    ∀ (l s : List Char), s <:+ l → pat.isPrefixOf s → hasSub pat l = true := by
  intro l
  induction l with
  | nil =>
    intro s hs hp
    rw [List.suffix_nil.mp hs] at hp
    simp only [hasSub, List.isEmpty_iff]
    cases pat with
    | nil => rfl
    | cons a t => simp [List.isPrefixOf] at hp
  | cons c rest ih =>
    intro s hs hp
    rcases List.suffix_cons_iff.mp hs with h1 | h2
    · subst h1
      simp [hasSub, hp]
    · simp [hasSub, ih s h2 hp]

/-- Contrapositive form used to discharge pass triggers. -/
theorem no_prefix_of_not_hasSub (pat l : List Char) (h : hasSub pat l = false) :
    ∀ s, s <:+ l → ¬ (pat.isPrefixOf s = true) := by
  intro s hs hp
  rw [hasSub_of_suffix pat l s hs hp] at h
  exact Bool.noConfusion h

/-- The conditional header needs two opening braces. -/
theorem matchIfHeader_eq_none (l : List Char)
    (h : ¬ (('{' :: '{' :: []).isPrefixOf l = true)) : matchIfHeader l = none := by
  simp only [matchIfHeader, Bool.not_eq_true] at *
  simp [h]

/-- The equality pass fires only at two opening braces. -/
theorem matchEq_eq_none (ans : MergeAnswers) (l : List Char)
    (h : ¬ (('{' :: '{' :: []).isPrefixOf l = true)) : matchEq ans l = none := by
  simp [matchEq, matchIfHeader_eq_none l h]

/-- The inequality pass fires only at two opening braces. -/
theorem matchNeq_eq_none (ans : MergeAnswers) (l : List Char)
    (h : ¬ (('{' :: '{' :: []).isPrefixOf l = true)) : matchNeq ans l = none := by
  simp [matchNeq, matchIfHeader_eq_none l h]

/-- The existence pass fires only at two opening braces. -/
theorem matchIf_eq_none (ans : MergeAnswers) (l : List Char)
    (h : ¬ (('{' :: '{' :: []).isPrefixOf l = true)) : matchIf ans l = none := by
  simp [matchIf, matchIfHeader_eq_none l h]

/-- The non-existence pass fires only at two opening braces. -/
theorem matchIfNot_eq_none (ans : MergeAnswers) (l : List Char)
    (h : ¬ (('{' :: '{' :: []).isPrefixOf l = true)) : matchIfNot ans l = none := by
  simp [matchIfNot, matchIfHeader_eq_none l h]

/-- The bracket-section pass fires only at two opening square brackets. -/
theorem matchBracket_eq_none (ans : MergeAnswers) (l : List Char)
    (h : ¬ (('[' :: '[' :: []).isPrefixOf l = true)) : matchBracket ans l = none := by
  simp only [matchBracket, Bool.not_eq_true] at *
  simp [h]

/-- The identifier pass fires only at two opening angle brackets. -/
theorem matchIdentSub_eq_none (rd : List Char → List Char → List Char)
    (ans : MergeAnswers) (l : List Char)
    (h : ¬ (('<' :: '<' :: []).isPrefixOf l = true)) : matchIdentSub rd ans l = none := by
  simp only [matchIdentSub, Bool.not_eq_true] at *
  simp [h]

/-- Without an increment token the hash substitution is the identity. -/
theorem replaceHash_eq_self (counter : Nat) (l : List Char)
    (h : hasSub ('#' :: '#' :: []) l = false) : replaceHash counter l = l := by
  induction l with
  | nil => rfl
  | cons c rest ih =>
    cases rest with
    | nil => rfl
    | cons c2 rest2 =>
      simp only [hasSub, Bool.or_eq_false_iff] at h
      have hcc : ¬ (c = '#' ∧ c2 = '#') := by
        rintro ⟨h1, h2⟩
        subst h1; subst h2
        simp [List.isPrefixOf] at h
      have h2 : hasSub ('#' :: '#' :: []) (c2 :: rest2) = false := by
        simp only [hasSub, Bool.or_eq_false_iff]
        exact h.2
      simp only [replaceHash, if_neg hcc]
      exact congrArg (c :: ·) (ih h2)

/-- Without a peek token the peek substitution is the identity. -/
theorem replacePeek_eq_self (counter : Nat) (l : List Char)
    (h : hasSub ('#' :: '^' :: '.' :: []) l = false) : replacePeek counter l = l := by
  induction l with
  | nil => rfl
  | cons c rest ih =>
    cases rest with
    | nil => rfl
    | cons c2 rest2 =>
      cases rest2 with
      | nil => rfl
      | cons c3 rest3 =>
        simp only [hasSub, Bool.or_eq_false_iff] at h
        have hcc : ¬ (c = '#' ∧ c2 = '^' ∧ c3 = '.') := by
          rintro ⟨h1, h2, h3⟩
          subst h1; subst h2; subst h3
          simp [List.isPrefixOf] at h
        have h2 : hasSub ('#' :: '^' :: '.' :: []) (c2 :: c3 :: rest3) = false := by
          simp only [hasSub, Bool.or_eq_false_iff]
          exact h.2
        simp only [replacePeek, if_neg hcc]
        exact congrArg (c :: ·) (ih h2)

/-- Without a double space the whitespace cleanup is the identity. -/
theorem collapseSpaces_eq_self (l : List Char)
    (h : hasSub (' ' :: ' ' :: []) l = false) : collapseSpaces l = l := by
  induction l with
  | nil => rfl
  | cons c rest ih =>
    simp only [hasSub, Bool.or_eq_false_iff] at h
    simp only [collapseSpaces, h.1]
    simp only [Bool.false_eq_true, if_false]
    exact congrArg (c :: ·) (ih h.2)

/-- Helper: all six rewriting passes are the identity on a template free
of opening-brace pairs, opening-angle-bracket pairs and opening-square-
bracket pairs, so the merge reduces to the counter and whitespace
stages. -/
theorem merge_template_no_markup (rd : List Char → List Char → List Char)
    (ans : MergeAnswers) (t : List Char)
    (hb : hasSub ('{' :: '{' :: []) t = false)
    (ha : hasSub ('<' :: '<' :: []) t = false)
    (hs : hasSub ('[' :: '[' :: []) t = false) :
    merge_template rd t ans =
      collapseSpaces (replaceHash 1 (replacePeek 1 t)) := by
  have e1 : eq_pass ans t = t :=
    rewriteScan_eq_self _ _ _ (fun s hsuf =>
      matchEq_eq_none ans s (no_prefix_of_not_hasSub _ _ hb s hsuf))
  have e2 : neq_pass ans t = t :=
    rewriteScan_eq_self _ _ _ (fun s hsuf =>
      matchNeq_eq_none ans s (no_prefix_of_not_hasSub _ _ hb s hsuf))
  have e3 : if_pass ans t = t :=
    rewriteScan_eq_self _ _ _ (fun s hsuf =>
      matchIf_eq_none ans s (no_prefix_of_not_hasSub _ _ hb s hsuf))
  have e4 : if_not_pass ans t = t :=
    rewriteScan_eq_self _ _ _ (fun s hsuf =>
      matchIfNot_eq_none ans s (no_prefix_of_not_hasSub _ _ hb s hsuf))
  have e5 : bracket_pass ans t = t :=
    rewriteScan_eq_self _ _ _ (fun s hsuf =>
      matchBracket_eq_none ans s (no_prefix_of_not_hasSub _ _ hs s hsuf))
  have e6 : ident_pass rd ans t = t :=
    rewriteScan_eq_self _ _ _ (fun s hsuf =>
      matchIdentSub_eq_none rd ans s (no_prefix_of_not_hasSub _ _ ha s hsuf))
  show collapseSpaces (replaceHash 1 (replacePeek 1
    (ident_pass rd ans (bracket_pass ans (if_not_pass ans (if_pass ans
      (neq_pass ans (eq_pass ans t)))))))) = _
  rw [e1, e2, e3, e4, e5, e6]

/-- C2, amended: merging a template that contains no opening-brace pair,
no opening-angle-bracket pair, no opening-square-bracket pair, no
increment token, no peek token, and additionally no run of two or more
spaces, returns the template unchanged for every answer map.  (The
whitespace-cleanup pass of `_merge_template` rewrites space runs even in
a template without tokens, so the unconditional identity law fails; see
the counterexample.) -/
theorem merge_no_token_identity (rd : List Char → List Char → List Char)
    (ans : MergeAnswers) (t : List Char)
    (hb : hasSub ('{' :: '{' :: []) t = false)
    (ha : hasSub ('<' :: '<' :: []) t = false)
    (hsq : hasSub ('[' :: '[' :: []) t = false)
    (hh : hasSub ('#' :: '#' :: []) t = false)
    (hp : hasSub ('#' :: '^' :: '.' :: []) t = false)
    (hsp : hasSub (' ' :: ' ' :: []) t = false) :
    merge_template rd t ans = t := by
  rw [merge_template_no_markup rd ans t hb ha hsq,
    replacePeek_eq_self 1 t hp, replaceHash_eq_self 1 t hh,
    collapseSpaces_eq_self t hsp]

/-- Witness for the amended C2 at a concrete token-free template. -/
theorem merge_no_token_identity_witness :
    merge_template (fun _ _ => []) ("hello world".toList) [] = ("hello world".toList) :=
  merge_no_token_identity (fun _ _ => []) [] ("hello world".toList)
    (by decide) (by decide) (by decide) (by decide) (by decide) (by decide)

/-- C2, counterexample: the template consisting of two letters separated
by two spaces contains no identifier token, no conditional markup, no
bracket section and no counter token, yet merging it changes it (the
double space collapses), so merge is not the identity on token-free
templates. -/
theorem merge_no_token_counterexample :
    (hasSub ('{' :: '{' :: []) ("a  b".toList) = false
      ∧ hasSub ('<' :: '<' :: []) ("a  b".toList) = false
      ∧ hasSub ('[' :: '[' :: []) ("a  b".toList) = false
      ∧ hasSub ('#' :: '#' :: []) ("a  b".toList) = false
      ∧ hasSub ('#' :: '^' :: '.' :: []) ("a  b".toList) = false)
    ∧ merge_template (fun _ _ => []) ("a  b".toList) [] = ("a b".toList)
    ∧ ("a b".toList) ≠ ("a  b".toList) :=
  ⟨by decide, by decide, by decide⟩

/-- C3: within one merge call the two counter tokens share one integer
starting at 1, peeks are substituted before increments, and the counter
does not persist across calls: for every answer map the increment-only
template merges to consecutive numbers starting at 1, and the
peek-then-increment template shows the value the increment will see. -/
theorem merge_counter_tokens :
    (∀ (rd : List Char → List Char → List Char) (ans : MergeAnswers),
        merge_template rd ("##-##-##".toList) ans = ("1-2-3".toList))
    ∧ (∀ (rd : List Char → List Char → List Char) (ans : MergeAnswers),
        merge_template rd ("#^. of ##".toList) ans = ("1 of 1".toList)) := by
  constructor
  · intro rd ans
    rw [merge_template_no_markup rd ans _ (by decide) (by decide) (by decide)]
    decide
  · intro rd ans
    rw [merge_template_no_markup rd ans _ (by decide) (by decide) (by decide)]
    decide

set_option maxHeartbeats 2000000 in
/-- C4: the bracket-section scenario.  With an empty `amount` the bracket
section is dropped whole (an empty contained identifier removes the
section); with a non-empty `amount` the brackets are stripped and the
contained identifier substituted inline. -/
theorem merge_bracket_section_scenario :
    (∀ rd : List Char → List Char → List Char,
        merge_template rd ("Dear <<client_name>>, [[you owe <<amount>>]].".toList)
          [("client_name".toList, "Jo".toList), ("amount".toList, [])]
          = ("Dear Jo, .".toList))
    ∧ (∀ rd : List Char → List Char → List Char,
        merge_template rd ("Dear <<client_name>>, [[you owe <<amount>>]].".toList)
          [("client_name".toList, "Jo".toList), ("amount".toList, "$5".toList)]
          = ("Dear Jo, you owe $5.".toList)) :=
  ⟨fun _ => rfl, fun _ => rfl⟩

/-- C5: for every answer map the existence conditional keeps the enclosed
text exactly when the identifier's value is not empty under the emptiness
predicate (absent values default to the empty string); in particular the
unanswered map yields the empty string and the map answering `1` yields
the enclosed text. -/
theorem merge_existence_conditional :
    (∀ (rd : List Char → List Char → List Char) (ans : MergeAnswers),
        merge_template rd ("\x7b\x7b IF <<a>> \x7d\x7dX\x7b\x7b END \x7d\x7d".toList) ans
          = (if is_value_empty (lookupD ans ("a".toList) []) then [] else ("X".toList)))
    ∧ merge_template (fun _ _ => [])
        ("\x7b\x7b IF <<a>> \x7d\x7dX\x7b\x7b END \x7d\x7d".toList) [] = []
    ∧ merge_template (fun _ _ => [])
        ("\x7b\x7b IF <<a>> \x7d\x7dX\x7b\x7b END \x7d\x7d".toList)
        [("a".toList, "1".toList)] = ("X".toList) := by
  refine ⟨?_, rfl, rfl⟩
  intro rd ans
  have e3 : if_pass ans ("\x7b\x7b IF <<a>> \x7d\x7dX\x7b\x7b END \x7d\x7d".toList)
      = process_if_block ans ("a".toList) ("X".toList) ++ [] := rfl
  show collapseSpaces (replaceHash 1 (replacePeek 1
    (ident_pass rd ans (bracket_pass ans (if_not_pass ans (if_pass ans
      (neq_pass ans (eq_pass ans
        ("\x7b\x7b IF <<a>> \x7d\x7dX\x7b\x7b END \x7d\x7d".toList))))))))) = _
  rw [show eq_pass ans ("\x7b\x7b IF <<a>> \x7d\x7dX\x7b\x7b END \x7d\x7d".toList)
      = ("\x7b\x7b IF <<a>> \x7d\x7dX\x7b\x7b END \x7d\x7d".toList) from rfl]
  rw [show neq_pass ans ("\x7b\x7b IF <<a>> \x7d\x7dX\x7b\x7b END \x7d\x7d".toList)
      = ("\x7b\x7b IF <<a>> \x7d\x7dX\x7b\x7b END \x7d\x7d".toList) from rfl]
  rw [e3]
  simp only [process_if_block]
  cases h : is_value_empty (lookupD ans ("a".toList) []) with
  | false => simp only [h, Bool.false_eq_true, not_false_eq_true, if_true, if_false]; rfl
  | true => simp only [h, not_true_eq_false, if_false, if_true]; rfl

/-- Processing a list of logic items starts with its head: the evaluator
continues into the tail exactly when the head leaves the continue flag
set. -/
theorem process_logic_items_cons (env : List Nat) (ans : AnswerEnv)
    (item : LogicItem) (rest : List LogicItem) (acc : List Nat) :
    process_logic_items env ans (item :: rest) acc =
      (if (process_logic_items env ans [item] acc).2 = true
        then process_logic_items env ans rest (process_logic_items env ans [item] acc).1
        else process_logic_items env ans [item] acc) := by
  cases item with
  | question qid stop =>
    cases stop with
    | true => simp [process_logic_items]
    | false => simp [process_logic_items]
  | other => simp [process_logic_items]
  | conditional ifIdent op value ngid nested endF =>
    simp only [process_logic_items]
    by_cases hg : ifIdent ≠ [] ∧ (lookupAns ans ifIdent).isSome
    · simp only [if_pos hg]
      cases hlk : lookupAns ans ifIdent with
      | none => simp_all
      | some inner =>
        cases inner with
        | none => simp
        | some actual =>
          by_cases ha : actual = []
          · simp [ha]
          · simp only [if_neg ha]
            by_cases hmet : (if op = ("not_equals").toList
                then some actual ≠ value else some actual = value)
            · simp only [if_pos hmet]
              by_cases hr : (process_logic_items env ans nested acc).2 = false
              · simp [hr]
              · by_cases he : endF = true
                · simp [hr, he]
                · simp [hr, he]
            · simp only [if_neg hmet]
              simp
    · simp [if_neg hg]

/-- Sequential composition: the items after a prefix are processed only
when the prefix leaves the continue flag set. -/
theorem process_logic_items_append (env : List Nat) (ans : AnswerEnv)
    (items1 items2 : List LogicItem) (acc : List Nat) :
    process_logic_items env ans (items1 ++ items2) acc =
      (if (process_logic_items env ans items1 acc).2 = true
        then process_logic_items env ans items2 (process_logic_items env ans items1 acc).1
        else process_logic_items env ans items1 acc) := by
  induction items1 generalizing acc with
  | nil => simp [process_logic_items]
  | cons item rest ih =>
    rw [List.cons_append, process_logic_items_cons env ans item (rest ++ items2) acc,
      process_logic_items_cons env ans item rest acc]
    by_cases h1 : (process_logic_items env ans [item] acc).2 = true
    · simp only [if_pos h1]
      rw [ih]
    · simp [h1]

/-- First occurrences distribute over append, the seen set growing by the
kept elements. -/
theorem first_occurrences_append (s : List Nat) (xs ys : List Nat) :
    first_occurrences s (xs ++ ys) =
      first_occurrences s xs ++ first_occurrences (s ++ first_occurrences s xs) ys := by
  induction xs generalizing s with
  | nil => simp [first_occurrences]
  | cons x xs ih =>
    by_cases hx : x ∈ s
    · simp only [List.cons_append, first_occurrences, if_pos hx, List.append_eq]
      rw [ih]
    · simp only [List.cons_append, first_occurrences, if_neg hx, List.append_eq]
      rw [ih]
      simp [List.append_assoc]

/-- The seen-set guarded append of one question id agrees with taking
first occurrences of the one-element traversal. -/
theorem acc_step_eq (env : List Nat) (questions : List Nat) (qid : Nat) :
    (if qid ≠ 0 ∧ qid ∈ env ∧ qid ∉ questions then questions ++ [qid] else questions)
      = questions ++ first_occurrences questions
          (if qid ≠ 0 ∧ qid ∈ env then [qid] else []) := by
  by_cases h0 : qid ≠ 0
  · by_cases h1 : qid ∈ env
    · by_cases h2 : qid ∈ questions
      · simp [h0, h1, h2, first_occurrences]
      · simp [h0, h1, h2, first_occurrences]
    · simp [h0, h1, first_occurrences]
  · simp [h0, first_occurrences]

/-- Size-bounded form of the refinement: the evaluator equals the plain
depth-first traversal filtered through the seen set. -/
theorem process_eq_dfs_aux (env : List Nat) (ans : AnswerEnv) :
    ∀ (n : Nat) (items : List LogicItem) (acc : List Nat), sizeOf items ≤ n →
      process_logic_items env ans items acc =
        (acc ++ first_occurrences acc (dfs_collect env ans items).1,
          (dfs_collect env ans items).2) := by
  intro n
  induction n with
  | zero =>
    intro items acc h
    cases items with
    | nil => simp [process_logic_items, dfs_collect, first_occurrences]
    | cons item rest =>
      simp only [List.cons.sizeOf_spec] at h
      omega
  | succ n ih =>
    intro items acc h
    cases items with
    | nil => simp [process_logic_items, dfs_collect, first_occurrences]
    | cons item rest =>
      have hsz : sizeOf item + sizeOf rest ≤ n := by
        simp only [List.cons.sizeOf_spec] at h
        omega
      have hrest : sizeOf rest ≤ n := by omega
      cases item with
      | question qid stop =>
        cases stop with
        | true =>
          simp only [process_logic_items, dfs_collect, if_true]
          rw [acc_step_eq]
        | false =>
          simp only [process_logic_items, dfs_collect, Bool.false_eq_true, if_false]
          rw [ih rest _ hrest, first_occurrences_append, acc_step_eq env acc qid]
          simp [List.append_assoc]
      | other =>
        simp only [process_logic_items, dfs_collect]
        exact ih rest acc hrest
      | conditional ifIdent op value ngid nested endF =>
        have hnested : sizeOf nested ≤ n := by
          simp only [LogicItem.conditional.sizeOf_spec] at hsz
          omega
        by_cases hg : ifIdent ≠ [] ∧ (lookupAns ans ifIdent).isSome
        · simp only [process_logic_items, dfs_collect, if_pos hg]
          cases hlk : lookupAns ans ifIdent with
          | none => simp_all
          | some inner =>
            cases inner with
            | none => exact ih rest acc hrest
            | some actual =>
              by_cases ha : actual = []
              · simp only [if_pos ha]
                exact ih rest acc hrest
              · simp only [if_neg ha]
                by_cases hmet : (if op = ("not_equals").toList
                    then some actual ≠ value else some actual = value)
                · simp only [if_pos hmet]
                  rw [ih nested acc hnested]
                  by_cases hr : (dfs_collect env ans nested).2 = false
                  · simp [hr]
                  · by_cases he : endF = true
                    · simp [hr, he]
                    · simp only [hr, he, Bool.false_eq_true, if_false]
                      rw [ih rest _ hrest]
                      simp [first_occurrences_append, List.append_assoc]
                · simp only [if_neg hmet]
                  exact ih rest acc hrest
        · simp only [process_logic_items, dfs_collect, if_neg hg]
          exact ih rest acc hrest

/-- First occurrences never repeat an element and never produce one
already seen. -/
theorem first_occurrences_nodup (xs : List Nat) :
    ∀ s, (first_occurrences s xs).Nodup ∧ ∀ a ∈ first_occurrences s xs, a ∉ s := by
  induction xs with
  | nil => intro s; simp [first_occurrences]
  | cons x xs ih =>
    intro s
    by_cases hx : x ∈ s
    · simp only [first_occurrences, if_pos hx]
      exact ih s
    · simp only [first_occurrences, if_neg hx]
      refine ⟨List.nodup_cons.mpr ⟨?_, (ih (s ++ [x])).1⟩, ?_⟩
      · intro hmem
        have := (ih (s ++ [x])).2 x hmem
        simp at this
      · intro a ha
        rcases List.mem_cons.mp ha with rfl | ha2
        · exact hx
        · intro haS
          exact (ih (s ++ [x])).2 a ha2 (by simp [haS])

/-- C8: the question-logic evaluator is the depth-first left-to-right
traversal with a seen-set on top: its result extends the accumulator with
the first occurrences of the traversal sequence, so every question id
appears at most once and in traversal order. -/
theorem visible_questions_dedup_dfs_order :
    (∀ (env : List Nat) (ans : AnswerEnv) (items : List LogicItem) (acc : List Nat),
        process_logic_items env ans items acc =
          (acc ++ first_occurrences acc (dfs_collect env ans items).1,
            (dfs_collect env ans items).2))
    ∧ (∀ (env : List Nat) (ans : AnswerEnv) (items : List LogicItem),
        (visible_questions env ans items).Nodup) := by
  constructor
  · intro env ans items acc
    exact process_eq_dfs_aux env ans (sizeOf items) items acc (le_refl _)
  · intro env ans items
    have h := process_eq_dfs_aux env ans (sizeOf items) items [] (le_refl _)
    unfold visible_questions
    rw [h]
    simp only [List.nil_append]
    exact (first_occurrences_nodup (dfs_collect env ans items).1 []).1

/-- C6: a question leaf with the stop flag is appended (when active and
unseen) and returns with the continue flag cleared, ignoring everything
after it at its own level; a cleared continue flag makes every later
sibling list irrelevant at every level; and on the three-question example
the visible questions stop after the flagged one. -/
theorem stop_flow_halts_traversal :
    (∀ (env : List Nat) (ans : AnswerEnv) (qid : Nat) (acc : List Nat),
        qid ≠ 0 → qid ∈ env → qid ∉ acc →
          process_logic_items env ans [LogicItem.question qid true] acc
            = (acc ++ [qid], false))
    ∧ (∀ (env : List Nat) (ans : AnswerEnv) (qid : Nat) (post : List LogicItem)
        (acc : List Nat),
        process_logic_items env ans (LogicItem.question qid true :: post) acc
          = process_logic_items env ans [LogicItem.question qid true] acc)
    ∧ (∀ (env : List Nat) (ans : AnswerEnv) (pre post : List LogicItem) (acc : List Nat),
        (process_logic_items env ans pre acc).2 = false →
          process_logic_items env ans (pre ++ post) acc
            = process_logic_items env ans pre acc)
    ∧ visible_questions [1, 2, 3] []
        [LogicItem.question 1 false, LogicItem.question 2 true, LogicItem.question 3 false]
      = [1, 2] := by
  refine ⟨?_, ?_, ?_, ?_⟩
  · intro env ans qid acc h0 h1 h2
    simp [process_logic_items, h0, h1, h2]
  · intro env ans qid post acc
    simp [process_logic_items]
  · intro env ans pre post acc hstop
    rw [process_logic_items_append, if_neg (by simp [hstop])]
  · simp [visible_questions, process_logic_items]

/-- Witness for C6 at a concrete stop leaf and a concrete later sibling. -/
theorem stop_flow_halts_traversal_witness :
    process_logic_items [5] [] [LogicItem.question 5 true] [] = ([5], false)
      ∧ process_logic_items [5] []
          ([LogicItem.question 5 true] ++ [LogicItem.question 6 false]) []
        = process_logic_items [5] [] [LogicItem.question 5 true] [] := by
  constructor
  · exact stop_flow_halts_traversal.1 [5] [] 5 [] (by decide) (by decide) (by decide)
  · exact stop_flow_halts_traversal.2.2.1 [5] [] [LogicItem.question 5 true]
      [LogicItem.question 6 false] [] (by simp [process_logic_items])

/-- C7: a conditional whose source identifier is unanswered, or answered
with a null or empty value, contributes nothing, whatever its operator
and value: the evaluator skips straight past it; in particular an
empty-string answer never satisfies a conditional even when the
conditional's expected value is itself the empty string. -/
theorem empty_conditional_source_never_fires :
    (∀ (env : List Nat) (ans : AnswerEnv) (ifIdent op : List Char)
        (value : Option (List Char)) (ngid : Nat) (nested rest : List LogicItem)
        (endF : Bool) (acc : List Nat),
        (lookupAns ans ifIdent = none ∨ lookupAns ans ifIdent = some none
          ∨ lookupAns ans ifIdent = some (some [])) →
        process_logic_items env ans
            (LogicItem.conditional ifIdent op value ngid nested endF :: rest) acc
          = process_logic_items env ans rest acc)
    ∧ visible_questions [1] [(("a").toList, some [])]
        [LogicItem.conditional (("a").toList) (("equals").toList) (some []) 0
          [LogicItem.question 1 false] false]
      = [] := by
  constructor
  · intro env ans ifIdent op value ngid nested rest endF acc h
    rcases h with h | h | h
    · simp [process_logic_items, h]
    · simp [process_logic_items, h]
    · by_cases hid : ifIdent = []
      · simp [process_logic_items, h, hid]
      · simp [process_logic_items, h, hid]
  · simp +decide [visible_questions, process_logic_items, lookupAns]

/-- Witness for C7 at a concrete unanswered conditional followed by a
plain question. -/
theorem empty_conditional_source_never_fires_witness :
    process_logic_items [9] []
        (LogicItem.conditional (("a").toList) (("equals").toList) (some (("x").toList)) 0
          [LogicItem.question 7 false] false :: [LogicItem.question 9 false]) []
      = process_logic_items [9] [] [LogicItem.question 9 false] [] :=
  empty_conditional_source_never_fires.1 [9] [] (("a").toList) (("equals").toList)
    (some (("x").toList)) 0 [LogicItem.question 7 false] [LogicItem.question 9 false]
    false [] (Or.inl (by simp [lookupAns]))

/-- C1, counterexample: an operator that is neither `equals` nor
`not_equals` is not treated as not-satisfied: with operator
`greater_than` and a matching stored value the nested question is
revealed, and the submit-and-advance shortcut likewise returns the
conditional's next group. -/
theorem conditional_unknown_operator_counterexample :
    visible_questions [1] [(("a").toList, some (("x").toList))]
        [LogicItem.conditional (("a").toList) (("greater_than").toList)
          (some (("x").toList)) 0 [LogicItem.question 1 false] false]
      = [1]
    ∧ get_next_group
        [⟨1, 1, [LogicItem.conditional (("a").toList) (("greater_than").toList)
            (some (("x").toList)) 5 [] false], [(10, ("a").toList)]⟩]
        ⟨1, 1, [LogicItem.conditional (("a").toList) (("greater_than").toList)
            (some (("x").toList)) 5 [] false], [(10, ("a").toList)]⟩
        [(10, some (("x").toList))]
      = some 5 := by
  constructor
  · simp +decide [visible_questions, process_logic_items, lookupAns]
  · simp +decide [get_next_group, get_next_group_shortcut, shortcut_scan, dictGetById]

/-- C1, amended: an operator other than `not_equals` is evaluated exactly
like `equals` (the backwards-compatibility default), both by the
question-logic evaluator and by the submit-and-advance conditional
shortcut; the evaluator is total, so no input raises. -/
theorem conditional_unknown_operator_evaluates_as_equals :
    (∀ (env : List Nat) (ans : AnswerEnv) (ifIdent op : List Char)
        (value : Option (List Char)) (ngid : Nat) (nested rest : List LogicItem)
        (endF : Bool) (acc : List Nat),
        op ≠ ("not_equals").toList →
        process_logic_items env ans
            (LogicItem.conditional ifIdent op value ngid nested endF :: rest) acc
          = process_logic_items env ans
              (LogicItem.conditional ifIdent (("equals").toList) value ngid nested endF
                :: rest) acc)
    ∧ (∀ (answerById : List (Nat × Option (List Char))) (ifIdent op : List Char)
        (value : Option (List Char)) (ngid : Nat) (qs : List (Nat × List Char)),
        op ≠ ("not_equals").toList →
        shortcut_scan answerById ifIdent value op ngid qs
          = shortcut_scan answerById ifIdent value (("equals").toList) ngid qs) := by
  constructor
  · intro env ans ifIdent op value ngid nested rest endF acc hop
    have hop2 : op ≠ ('n' :: 'o' :: 't' :: '_' :: 'e' :: 'q' :: 'u' :: 'a' :: 'l' :: 's' :: []) := by
      rw [show (("not_equals").toList)
          = ('n' :: 'o' :: 't' :: '_' :: 'e' :: 'q' :: 'u' :: 'a' :: 'l' :: 's' :: []) from rfl] at hop
      exact hop
    simp +decide [process_logic_items, hop2]
  · intro answerById ifIdent op value ngid qs hop
    induction qs with
    | nil => simp [shortcut_scan]
    | cons q rest ih =>
      have hop2 : op ≠ ('n' :: 'o' :: 't' :: '_' :: 'e' :: 'q' :: 'u' :: 'a' :: 'l' :: 's' :: []) := by
        rw [show (("not_equals").toList)
            = ('n' :: 'o' :: 't' :: '_' :: 'e' :: 'q' :: 'u' :: 'a' :: 'l' :: 's' :: []) from rfl] at hop
        exact hop
      simp +decide [shortcut_scan, hop2, ih]

/-- Witness for the amended C1 at the operator `greater_than`. -/
theorem conditional_unknown_operator_evaluates_as_equals_witness :
    process_logic_items [1] [(("a").toList, some (("x").toList))]
        [LogicItem.conditional (("a").toList) (("greater_than").toList)
          (some (("x").toList)) 0 [LogicItem.question 1 false] false] []
      = process_logic_items [1] [(("a").toList, some (("x").toList))]
          [LogicItem.conditional (("a").toList) (("equals").toList)
            (some (("x").toList)) 0 [LogicItem.question 1 false] false] [] :=
  conditional_unknown_operator_evaluates_as_equals.1 [1]
    [(("a").toList, some (("x").toList))] (("a").toList) (("greater_than").toList)
    (some (("x").toList)) 0 [LogicItem.question 1 false] [] false [] (by decide)

/-- C10, counterexample: a flow conditional whose identifier is the empty
string is skipped even when the empty string is present as a key in the
answer map with exactly the expected stored value, because the source
guards on the truthiness of the identifier first; the claimed
present-and-equal criterion says the target group should be contributed. -/
theorem flow_conditional_blank_identifier_counterexample :
    lookupAns [([], some (("y").toList))] [] = some (some (("y").toList))
    ∧ get_groups_from_flow_logic [7] [([], some (("y").toList))]
        [FlowStep.conditional [] (some (("y").toList)) 7 []]
      = [] := by
  constructor
  · simp [lookupAns]
  · simp [get_groups_from_flow_logic, process_steps]

/-- C10, amended: a flow conditional contributes its target group and
nested steps exactly when its identifier is non-empty and present as a
key with a stored answer exactly (case-sensitively) equal to the step's
value; only equality is supported, and there is no emptiness guard, so an
answered empty string satisfies a conditional expecting the empty
string. -/
theorem flow_conditional_equality_gate :
    (∀ (env : List Nat) (ans : AnswerEnv) (identifier : List Char)
        (value : Option (List Char)) (target : Nat) (nested rest : List FlowStep)
        (groups : List Nat),
        identifier ≠ [] → lookupAns ans identifier = some value →
        process_steps env ans (FlowStep.conditional identifier value target nested :: rest)
            groups
          = process_steps env ans rest
              (process_steps env ans nested
                (if target ≠ 0 ∧ target ∈ env ∧ target ∉ groups then groups ++ [target]
                  else groups)))
    ∧ (∀ (env : List Nat) (ans : AnswerEnv) (identifier : List Char)
        (value : Option (List Char)) (target : Nat) (nested rest : List FlowStep)
        (groups : List Nat),
        (identifier = [] ∨ lookupAns ans identifier ≠ some value) →
        process_steps env ans (FlowStep.conditional identifier value target nested :: rest)
            groups
          = process_steps env ans rest groups)
    ∧ get_groups_from_flow_logic [3] [(("x").toList, some [])]
        [FlowStep.conditional (("x").toList) (some []) 3 []]
      = [3] := by
  refine ⟨?_, ?_, ?_⟩
  · intro env ans identifier value target nested rest groups h1 h2
    simp [process_steps, h1, h2]
  · intro env ans identifier value target nested rest groups h
    rcases h with h | h
    · simp [process_steps, h]
    · by_cases hid : identifier = []
      · simp [process_steps, hid]
      · cases hlk : lookupAns ans identifier with
        | none => simp [process_steps, hid, hlk]
        | some stored =>
          have hne : ¬ (lookupAns ans identifier = some value) := h
          rw [hlk] at hne
          simp [process_steps, hid, hlk, hne]
  · simp +decide [get_groups_from_flow_logic, process_steps, lookupAns]

/-- Witness for the amended C10: a fired and a skipped conditional at
concrete inputs. -/
theorem flow_conditional_equality_gate_witness :
    process_steps [3] [(("x").toList, some [])]
        (FlowStep.conditional (("x").toList) (some []) 3 [] :: []) []
      = process_steps [3] [(("x").toList, some [])] []
          (process_steps [3] [(("x").toList, some [])] []
            (if (3 : Nat) ≠ 0 ∧ 3 ∈ [3] ∧ (3 : Nat) ∉ ([] : List Nat) then [] ++ [3] else []))
    ∧ process_steps [3] [] (FlowStep.conditional (("x").toList) (some []) 3 [] :: []) []
      = process_steps [3] [] [] [] := by
  constructor
  · exact flow_conditional_equality_gate.1 [3] [(("x").toList, some [])] (("x").toList)
      (some []) 3 [] [] [] (by decide) (by simp [lookupAns])
  · exact flow_conditional_equality_gate.2.1 [3] [] (("x").toList)
      (some []) 3 [] [] [] (Or.inr (by simp [lookupAns]))

/-- The running minimum of the display-order fold is one of the candidate
groups. -/
theorem foldl_min_mem (t : List GroupRec) :
    ∀ h : GroupRec,
      (t.foldl (fun best g => if g.displayOrder < best.displayOrder then g else best) h)
        ∈ h :: t := by
  induction t with
  | nil => intro h; simp
  | cons g t ih =>
    intro h
    simp only [List.foldl_cons]
    have hmem := ih (if g.displayOrder < h.displayOrder then g else h)
    rcases List.mem_cons.mp hmem with heq | hmem2
    · rw [heq]
      by_cases hlt : g.displayOrder < h.displayOrder
      · simp [hlt]
      · simp [hlt]
    · simp [hmem2]

/-- The running minimum of the display-order fold is no larger than any
candidate. -/
theorem foldl_min_le (t : List GroupRec) :
    ∀ (h : GroupRec) (x : GroupRec), x ∈ h :: t →
      (t.foldl (fun best g => if g.displayOrder < best.displayOrder then g else best)
          h).displayOrder ≤ x.displayOrder := by
  induction t with
  | nil =>
    intro h x hx
    simp only [List.foldl_nil]
    rcases List.mem_cons.mp hx with rfl | hx2
    · exact le_refl _
    · simp at hx2
  | cons g t ih =>
    intro h x hx
    simp only [List.foldl_cons]
    have hstep : (if g.displayOrder < h.displayOrder then g else h).displayOrder
        ≤ h.displayOrder ∧
        (if g.displayOrder < h.displayOrder then g else h).displayOrder
        ≤ g.displayOrder := by
      by_cases hlt : g.displayOrder < h.displayOrder
      · simp [hlt]
        omega
      · simp [hlt]
        omega
    have hres := ih (if g.displayOrder < h.displayOrder then g else h)
      (if g.displayOrder < h.displayOrder then g else h) (List.mem_cons_self _ _)
    rcases List.mem_cons.mp hx with rfl | hx2
    · exact le_trans hres hstep.1
    · rcases List.mem_cons.mp hx2 with rfl | hx3
      · exact le_trans hres hstep.2
      · exact ih (if g.displayOrder < h.displayOrder then g else h) x
          (List.mem_cons_of_mem _ hx3)

/-- Characterisation of the display-order fallback of `_get_next_group`:
`none` exactly when no group lies after the current one, and otherwise
the id of a group after the current one with minimal display order -- the
successor of the current group in the ordered group list. -/
theorem next_by_display_order_spec (allGroups : List GroupRec) (cur : GroupRec) :
    (next_by_display_order allGroups cur = none ↔
      ∀ g ∈ allGroups, ¬ cur.displayOrder < g.displayOrder)
    ∧ (∀ gid, next_by_display_order allGroups cur = some gid →
        ∃ g ∈ allGroups, g.id = gid ∧ cur.displayOrder < g.displayOrder
          ∧ ∀ g2 ∈ allGroups, cur.displayOrder < g2.displayOrder →
              g.displayOrder ≤ g2.displayOrder) := by
  unfold next_by_display_order
  cases hf : allGroups.filter (fun g => cur.displayOrder < g.displayOrder) with
  | nil =>
    constructor
    · simp only [true_iff]
      intro g hg hlt
      have : g ∈ allGroups.filter (fun g => cur.displayOrder < g.displayOrder) := by
        rw [List.mem_filter]
        exact ⟨hg, by simpa using hlt⟩
      rw [hf] at this
      simp at this
    · intro gid h
      simp at h
  | cons h t =>
    constructor
    · refine iff_of_false (by simp) ?_
      intro hall
      have hh : h ∈ allGroups.filter (fun g => cur.displayOrder < g.displayOrder) := by
        rw [hf]
        exact List.mem_cons_self _ _
      have hmem := List.mem_filter.mp hh
      exact hall h hmem.1 (by simpa using hmem.2)
    · intro gid hgid
      simp only [Option.some.injEq] at hgid
      set m := t.foldl (fun best g => if g.displayOrder < best.displayOrder then g else best) h
        with hm
      have hmem : m ∈ h :: t := foldl_min_mem t h
      have hmf : m ∈ allGroups.filter (fun g => cur.displayOrder < g.displayOrder) := by
        rw [hf]
        exact hmem
      refine ⟨m, (List.mem_filter.mp hmf).1, hgid, by simpa using (List.mem_filter.mp hmf).2, ?_⟩
      intro g2 hg2 hlt2
      have hg2f : g2 ∈ allGroups.filter (fun g => cur.displayOrder < g.displayOrder) := by
        rw [List.mem_filter]
        exact ⟨hg2, by simpa using hlt2⟩
      rw [hf] at hg2f
      exact foldl_min_le t h g2 hg2f

/-- A question-logic tree without conditional entries never produces a
legacy shortcut target. -/
theorem get_next_group_shortcut_none (answerById : List (Nat × Option (List Char)))
    (qs : List (Nat × List Char)) :
    ∀ items : List LogicItem,
      (∀ (ifIdent op : List Char) (value : Option (List Char)) (ngid : Nat)
        (nested : List LogicItem) (endF : Bool),
        LogicItem.conditional ifIdent op value ngid nested endF ∉ items) →
      get_next_group_shortcut answerById qs items = none := by
  intro items
  induction items with
  | nil => intro _; simp [get_next_group_shortcut]
  | cons item rest ih =>
    intro h
    cases item with
    | question qid stop =>
      simp only [get_next_group_shortcut]
      exact ih (fun a b c d e f hmem => h a b c d e f (List.mem_cons_of_mem _ hmem))
    | other =>
      simp only [get_next_group_shortcut]
      exact ih (fun a b c d e f hmem => h a b c d e f (List.mem_cons_of_mem _ hmem))
    | conditional a b c d e f =>
      exact absurd (List.mem_cons_self _ _) (h a b c d e f)

/-- C9: submit-and-advance either moves the session to the next group or,
when there is none, completes it with a non-null timestamp; with no
conditional entries the next group is the display-order fallback, which
is exactly the successor of the current group in the ordered group list
(the least display order exceeding the current one); and on three plain
groups, submitting from the last one completes the session. -/
theorem submit_advance_next_group_or_completed :
    (∀ (allGroups : List GroupRec) (session : SessionState)
        (answerById : List (Nat × Option (List Char))) (now : Nat) (cur : GroupRec),
        allGroups.find? (fun g => g.id = session.currentGroupId) = some cur →
        get_next_group allGroups cur answerById = none →
        submit_answers_nav allGroups session answerById now
          = some { session with isCompleted := true, completedAt := some now })
    ∧ (∀ (allGroups : List GroupRec) (session : SessionState)
        (answerById : List (Nat × Option (List Char))) (now : Nat) (cur : GroupRec)
        (gid : Nat),
        allGroups.find? (fun g => g.id = session.currentGroupId) = some cur →
        get_next_group allGroups cur answerById = some gid →
        submit_answers_nav allGroups session answerById now
          = some { session with currentGroupId := gid })
    ∧ (∀ (allGroups : List GroupRec) (cur : GroupRec)
        (answerById : List (Nat × Option (List Char))),
        (∀ (ifIdent op : List Char) (value : Option (List Char)) (ngid : Nat)
          (nested : List LogicItem) (endF : Bool),
          LogicItem.conditional ifIdent op value ngid nested endF ∉ cur.questionLogic) →
        get_next_group allGroups cur answerById = next_by_display_order allGroups cur)
    ∧ (∀ (allGroups : List GroupRec) (cur : GroupRec),
        (next_by_display_order allGroups cur = none ↔
          ∀ g ∈ allGroups, ¬ cur.displayOrder < g.displayOrder)
        ∧ (∀ gid, next_by_display_order allGroups cur = some gid →
            ∃ g ∈ allGroups, g.id = gid ∧ cur.displayOrder < g.displayOrder
              ∧ ∀ g2 ∈ allGroups, cur.displayOrder < g2.displayOrder →
                  g.displayOrder ≤ g2.displayOrder))
    ∧ submit_answers_nav
        [⟨1, 1, [], []⟩, ⟨2, 2, [], []⟩, ⟨3, 3, [], []⟩]
        ⟨3, false, none⟩ [] 42
      = some ⟨3, true, some 42⟩ := by
  refine ⟨?_, ?_, ?_, ?_, ?_⟩
  · intro allGroups session answerById now cur hfind hnext
    simp [submit_answers_nav, hfind, hnext]
  · intro allGroups session answerById now cur gid hfind hnext
    simp [submit_answers_nav, hfind, hnext]
  · intro allGroups cur answerById hnc
    simp [get_next_group, get_next_group_shortcut_none answerById cur.questions
      cur.questionLogic hnc]
  · intro allGroups cur
    exact next_by_display_order_spec allGroups cur
  · rfl

/-- Witness for C9 at a single-group session whose current group has no
successor. -/
theorem submit_advance_next_group_or_completed_witness :
    submit_answers_nav [⟨1, 1, [], []⟩] ⟨1, false, none⟩ [] 7
      = some ⟨1, true, some 7⟩ :=
  submit_advance_next_group_or_completed.1 [⟨1, 1, [], []⟩] ⟨1, false, none⟩ [] 7
    ⟨1, 1, [], []⟩ rfl rfl
